import Mathlib

/-!
A shallow embedding of the CloudFormation-template compiler of
`amplify-backend-gen` (src/src/types.ts and the template builder in
src/unnamed/part_000), together with proofs of the frozen claims about it.

JavaScript objects are modelled as association lists in insertion order
(string keys of JS objects iterate in insertion order); `JSON.stringify`
output corresponds to the association list read off in order, with
`undefined`-valued fields absent (modelled as `Option`).
-/

namespace AmplifyBackendGen

/-- A JSON-like value: the shape of the compiled CloudFormation document. -/
inductive JValue where
  | str (s : String)
  | num (n : Int)
  | bool (b : Bool)
  | arr (elems : List JValue)
  | obj (fields : List (String × JValue))
deriving Repr

/-- Lookup of a key in an association list (first match). In the compiled
document the key lists are kept duplicate-free, as JS object keys are. -/
def lookupA {α : Type} : List (String × α) → String → Option α
  | [], _ => none
  | (k, v) :: rest, key => if k = key then some v else lookupA rest key

/-- The keys of an association list, in order. -/
def keysA {α : Type} (m : List (String × α)) : List String := m.map Prod.fst

/-- Field lookup on a JSON object (none on non-objects). -/
def JValue.lookup : JValue → String → Option JValue
  | .obj fields, key => lookupA fields key
  | _, _ => none

/-! ## The data model (src/src/types.ts) -/

/-- `ResourceOutputReference` — category, resource name, output name. -/
structure ResourceOutputReference where
  category : String
  resource : String
  output : String
deriving DecidableEq, Repr

/-- `Table` (= `ApiTable`) — a data table living in a named API stack. -/
structure Table where
  apiName : String
  tableName : String
deriving DecidableEq, Repr

/-- `apiTableOutputReference` of types.ts. -/
def apiTableOutputReference (table : Table) : ResourceOutputReference :=
  ⟨"api", table.apiName, "GraphQLAPIIdOutput"⟩

/-- `Parameter` — a deployment-time free variable with optional default. -/
structure Parameter where
  name : String
  defaultValue : Option String
deriving DecidableEq, Repr

/-- `UserPool`. -/
structure UserPool where
  authName : String
deriving DecidableEq, Repr

/-- `userPoolOutputReference` of types.ts (only ever called with
"UserPoolId" as the requested output). -/
def userPoolOutputReference (userPool : UserPool) (output : String) :
    ResourceOutputReference :=
  ⟨"auth", userPool.authName, output⟩

/-- `TableAction`. -/
inductive TableAction where
  | readItem
  | updateItem
deriving DecidableEq, Repr

/-- `UserPoolAction`. -/
inductive UserPoolAction where
  | listUsers
  | adminCreateUser
  | adminGetUser
  | adminLinkProviderForUser
  | adminDeleteUser
deriving DecidableEq, Repr

/-- The raw action-name string of a `UserPoolAction` (the TS value). -/
def UserPoolAction.actionName : UserPoolAction → String
  | .listUsers => "ListUsers"
  | .adminCreateUser => "AdminCreateUser"
  | .adminGetUser => "AdminGetUser"
  | .adminLinkProviderForUser => "AdminLinkProviderForUser"
  | .adminDeleteUser => "AdminDeleteUser"

/-- An entry of `IAMActionPermission.resources`: `string | ResourceOutputReference`. -/
inductive IAMResource where
  | strRes (s : String)
  | refRes (r : ResourceOutputReference)
deriving DecidableEq, Repr

/-- `Permission` — the closed variant set (tagged union of types.ts). -/
inductive Permission where
  | tablePermission (table : Table) (actions : List TableAction)
  | userPoolPermission (userPool : UserPool) (actions : List UserPoolAction)
  | sendMailPermission (identity : Parameter)
  | iamActionPermission (actions : List String) (resources : List IAMResource)
deriving DecidableEq, Repr

/-- `VariableValueExpression` — `Parameter | ResourceOutputReference`
(distinguished by `instanceof` in the source). -/
inductive VariableValueExpression where
  | param (p : Parameter)
  | resource (r : ResourceOutputReference)
deriving DecidableEq, Repr

/-- `reduceVariableValueExpression` of types.ts. -/
def reduceVariableValueExpression {β : Type} (fP : Parameter → β)
    (fR : ResourceOutputReference → β) : VariableValueExpression → β
  | .param p => fP p
  | .resource r => fR r

/-- `EnvironmentVariable` — the closed variant set: `TableNameVariable`,
`ParameterVariable`, `ResourceOutputVariable`, `CoalescedVariable`. -/
inductive EnvironmentVariable where
  | tableNameVar (table : Table)
  | parameterVar (name : String) (parameter : Parameter)
  | resourceOutputVar (name : String) (reference : ResourceOutputReference)
  | coalescedVar (name : String) (first second : VariableValueExpression)
deriving DecidableEq, Repr

/-- `reduceEnvionmentVariable` of types.ts (sic). -/
def reduceEnvionmentVariable {β : Type} (fT : Table → β)
    (fP : String → Parameter → β) (fR : String → ResourceOutputReference → β)
    (fC : String → VariableValueExpression → VariableValueExpression → β) :
    EnvironmentVariable → β
  | .tableNameVar t => fT t
  | .parameterVar n p => fP n p
  | .resourceOutputVar n r => fR n r
  | .coalescedVar n f s => fC n f s

/-! ## Capability providers (src/unnamed/part_000) -/

/-- `CFParameter` — a declared template parameter (the `type` field is the
constant "Parameter" tag of the source). -/
structure CFParameter where
  type : String
  name : String
  defaultValue : Option String
deriving DecidableEq, Repr

/-- `CFConditionDefinition`. -/
structure CFConditionDefinition where
  name : String
  block : JValue
deriving Repr

/-- `CFVariableDefinition`. -/
structure CFVariableDefinition where
  name : String
  block : JValue
deriving Repr

namespace ResourceOutputReferenceParameterProvider

/-- `ResourceOutputReferenceParameterProvider.toParameter`: the derived
parameter name is `category + resource + output`, no default. -/
def toParameter (ref : ResourceOutputReference) : CFParameter :=
  ⟨"Parameter", ref.category ++ ref.resource ++ ref.output, none⟩

end ResourceOutputReferenceParameterProvider

namespace ParameterExpressionProvider

/-- `ParameterExpressionProvider.toExpression`: `{Ref: name}`. -/
def toExpression (p : Parameter) : JValue :=
  .obj [("Ref", .str p.name)]

end ParameterExpressionProvider

namespace ResourceOutputReferenceExpressionProvider

/-- `ResourceOutputReferenceExpressionProvider.toExpression`. -/
def toExpression (ref : ResourceOutputReference) : JValue :=
  ParameterExpressionProvider.toExpression
    ⟨(ResourceOutputReferenceParameterProvider.toParameter ref).name, none⟩

end ResourceOutputReferenceExpressionProvider

namespace TableParameterProvider

/-- `TableParameterProvider.toParameter`. -/
def toParameter (table : Table) : CFParameter :=
  ResourceOutputReferenceParameterProvider.toParameter
    (apiTableOutputReference table)

end TableParameterProvider

namespace TableDetailProvider

/-- `TableDetailProvider.toNameExpression`. -/
def toNameExpression (table : Table) : JValue :=
  .obj [("Fn::ImportValue", .obj [("Fn::Sub",
    .str ("$\x7b" ++ (TableParameterProvider.toParameter table).name ++
      "\x7d:GetAtt:" ++ table.tableName ++ "Table:Name"))])]

/-- `TableDetailProvider.toArnExpression`. -/
def toArnExpression (table : Table) : JValue :=
  .obj [("Fn::ImportValue", .obj [("Fn::Sub",
    .str ("$\x7b" ++ (TableParameterProvider.toParameter table).name ++
      "\x7d:GetAtt:" ++ table.tableName ++ "Table:Arn"))])]

/-- `TableDetailProvider.toStreamArnExpression`. -/
def toStreamArnExpression (table : Table) : JValue :=
  .obj [("Fn::ImportValue", .obj [("Fn::Sub",
    .str ("$\x7b" ++ (TableParameterProvider.toParameter table).name ++
      "\x7d:GetAtt:" ++ table.tableName ++ "Table:StreamArn"))])]

end TableDetailProvider

/-- `policyActionForTableAction`. -/
def policyActionForTableAction : TableAction → String
  | .readItem => "dynamodb:GetItem"
  | .updateItem => "dynamodb:UpdateItem"

/-- `policyActionForUserPoolAction`: `cognito-idp:` + the action name. -/
def policyActionForUserPoolAction (action : UserPoolAction) : String :=
  "cognito-idp:" ++ action.actionName

namespace PermissionPolicyProvider

/-- `PermissionPolicyProvider.toPolicyStatement` (via `reducePermission`). -/
def toPolicyStatement : Permission → JValue
  | .tablePermission table actions =>
    let tableParamName :=
      (ResourceOutputReferenceParameterProvider.toParameter
        (apiTableOutputReference table)).name
    let tableNameImport : JValue :=
      .obj [("Fn::ImportValue", .obj [("Fn::Sub",
        .str ("$\x7b" ++ tableParamName ++ "\x7d:GetAtt:" ++
          table.tableName ++ "Table:Name"))])]
    .obj [
      ("Effect", .str "Allow"),
      ("Action", .arr (actions.map (fun a => .str (policyActionForTableAction a)))),
      ("Resource", .arr [
        .obj [("Fn::Sub", .arr [
          .str "arn:aws:dynamodb:${region}:${account}:table/${tableName}",
          .obj [
            ("region", .obj [("Ref", .str "AWS::Region")]),
            ("account", .obj [("Ref", .str "AWS::AccountId")]),
            ("tableName", tableNameImport)]])]])]
  | .userPoolPermission userPool actions =>
    let userPoolIdExpression :=
      ResourceOutputReferenceExpressionProvider.toExpression
        (userPoolOutputReference userPool "UserPoolId")
    .obj [
      ("Effect", .str "Allow"),
      ("Action", .arr (actions.map (fun a => .str (policyActionForUserPoolAction a)))),
      ("Resource", .obj [("Fn::Sub", .arr [
        .str "arn:aws:cognito-idp:${region}:${account}:userpool/${userPoolId}",
        .obj [
          ("region", .obj [("Ref", .str "AWS::Region")]),
          ("account", .obj [("Ref", .str "AWS::AccountId")]),
          ("userPoolId", userPoolIdExpression)]])])]
  | .sendMailPermission identity =>
    .obj [
      ("Effect", .str "Allow"),
      ("Action", .arr [.str "ses:SendEmail"]),
      ("Resource", .obj [("Fn::Sub", .str ("$\x7b" ++ identity.name ++ "\x7d"))])]
  | .iamActionPermission actions resources =>
    .obj [
      ("Effect", .str "Allow"),
      ("Action", .arr (actions.map JValue.str)),
      ("Resource", .arr (resources.map (fun r =>
        match r with
        | .strRes s => .str s
        | .refRes ref =>
          ResourceOutputReferenceExpressionProvider.toExpression ref)))]

end PermissionPolicyProvider

/-- `valueToParameter`: a `Parameter` keeps its name and default, a
`ResourceOutputReference` goes through the derived-name provider. -/
def valueToParameter : VariableValueExpression → List CFParameter
  | .resource r => [ResourceOutputReferenceParameterProvider.toParameter r]
  | .param v => [⟨"Parameter", v.name, v.defaultValue⟩]

namespace PermissionParametersProvider

/-- `PermissionParametersProvider.toParameters` (via `reducePermission`). -/
def toParameters : Permission → List CFParameter
  | .tablePermission table _ =>
    [ResourceOutputReferenceParameterProvider.toParameter
      (apiTableOutputReference table)]
  | .userPoolPermission userPool _ =>
    [ResourceOutputReferenceParameterProvider.toParameter
      (userPoolOutputReference userPool "UserPoolId")]
  | .sendMailPermission identity => valueToParameter (.param identity)
  | .iamActionPermission _ resources =>
    (resources.filterMap (fun r =>
      match r with
      | .strRes _ => none
      | .refRes ref =>
        some (ResourceOutputReferenceParameterProvider.toParameter ref)))

end PermissionParametersProvider

namespace PermissionResourceOutputReferenceProvider

/-- `PermissionResourceOutputReferenceProvider.toOutputReferences`. -/
def toOutputReferences : Permission → List ResourceOutputReference
  | .tablePermission table _ => [apiTableOutputReference table]
  | .userPoolPermission userPool _ =>
    [userPoolOutputReference userPool "UserPoolId"]
  | .sendMailPermission _ => []
  | .iamActionPermission _ resources =>
    resources.filterMap (fun r =>
      match r with
      | .strRes _ => none
      | .refRes ref => some ref)

end PermissionResourceOutputReferenceProvider

namespace PermissionConditionProvider

/-- `PermissionConditionProvider.toConditions`: always empty. -/
def toConditions (_ : Permission) : List CFConditionDefinition := []

end PermissionConditionProvider

namespace EnvironmentVariableParametersProvider

/-- `EnvironmentVariableParametersProvider.toParameters`. -/
def toParameters : EnvironmentVariable → List CFParameter
  | .tableNameVar table =>
    [ResourceOutputReferenceParameterProvider.toParameter
      (apiTableOutputReference table)]
  | .parameterVar _ parameter => valueToParameter (.param parameter)
  | .resourceOutputVar _ reference =>
    [ResourceOutputReferenceParameterProvider.toParameter reference]
  | .coalescedVar _ first second =>
    valueToParameter first ++ valueToParameter second

end EnvironmentVariableParametersProvider

/-- JS `String.prototype.toUpperCase`, modelled character-wise (the names
involved are ASCII). -/
def toUpperCase (s : String) : String :=
  ⟨s.data.map Char.toUpper⟩

/-- `variableValueExpressionToCfExpression`. -/
def variableValueExpressionToCfExpression : VariableValueExpression → JValue :=
  reduceVariableValueExpression
    ParameterExpressionProvider.toExpression
    (fun resource => .obj [("Ref",
      .str (ResourceOutputReferenceParameterProvider.toParameter resource).name)])

/-- `conditionNameForEnv`: "FirstNotEmpty_" + the variable's name. -/
def conditionNameForEnv (name : String) : String :=
  "FirstNotEmpty_" ++ name

namespace EnvironmentVariableVariableProvider

/-- `EnvironmentVariableVariableProvider.toVariable` (via
`reduceEnvionmentVariable`). -/
def toVariable : EnvironmentVariable → CFVariableDefinition
  | .tableNameVar table =>
    ⟨toUpperCase (table.tableName ++ "_table_name"),
      .obj [("Fn::ImportValue", .obj [("Fn::Sub",
        .str ("$\x7b" ++
          (ResourceOutputReferenceParameterProvider.toParameter
            (apiTableOutputReference table)).name ++
          "\x7d:GetAtt:" ++ table.tableName ++ "Table:Name"))])]⟩
  | .parameterVar name parameter =>
    ⟨name, ParameterExpressionProvider.toExpression parameter⟩
  | .resourceOutputVar name reference =>
    ⟨name, ResourceOutputReferenceExpressionProvider.toExpression reference⟩
  | .coalescedVar name first second =>
    ⟨name, .obj [("Fn::If", .arr [
      .str (conditionNameForEnv name),
      variableValueExpressionToCfExpression first,
      variableValueExpressionToCfExpression second])]⟩

end EnvironmentVariableVariableProvider

/-- `variableValueExpressionToResourceOutputReferences`. -/
def variableValueExpressionToResourceOutputReferences :
    VariableValueExpression → List ResourceOutputReference :=
  reduceVariableValueExpression (fun _ => []) (fun reference => [reference])

namespace EnvironmentVariableResourceOutputReferenceProvider

/-- `EnvironmentVariableResourceOutputReferenceProvider.toOutputReferences`. -/
def toOutputReferences : EnvironmentVariable → List ResourceOutputReference
  | .tableNameVar table => [apiTableOutputReference table]
  | .parameterVar _ _ => []
  | .resourceOutputVar _ reference => [reference]
  | .coalescedVar _ first second =>
    variableValueExpressionToResourceOutputReferences first ++
      variableValueExpressionToResourceOutputReferences second

end EnvironmentVariableResourceOutputReferenceProvider

namespace EnvironmentVariableConditionProvider

/-- `EnvironmentVariableConditionProvider.toConditions`: only
`CoalescedVariable` produces a condition — "first leg is not empty". -/
def toConditions : EnvironmentVariable → List CFConditionDefinition
  | .tableNameVar _ => []
  | .parameterVar _ _ => []
  | .resourceOutputVar _ _ => []
  | .coalescedVar name first _ =>
    [⟨conditionNameForEnv name,
      .obj [("Fn::Not", .arr [
        .obj [("Fn::Equals", .arr [
          variableValueExpressionToCfExpression first, .str ""])]])]⟩]

end EnvironmentVariableConditionProvider

/-! Combined provider objects (`CFEnvironment`, `CFPermissions`) are spreads
of the per-concern providers; we refer to the per-concern functions
directly. -/

/-! ## The template assembler (`buildCloudFormationTemplate`) -/

/-- Generic lodash `merge` on JSON values: objects merge key-wise (existing
keys keep their position and their values are merged recursively, new keys
are appended), arrays merge element-wise (the destination's tail beyond the
source's length survives), anything else is overwritten by the source. -/
def jmerge : JValue → JValue → JValue
  | .obj d, .obj s => .obj (jmergeObj d s)
  | .arr d, .arr s => .arr (jmergeArr d s)
  | _, s => s
where
  jmergeObj (d : List (String × JValue)) :
      List (String × JValue) → List (String × JValue)
    | [] => d
    | (k, v) :: rest =>
      let d' := if (d.map Prod.fst).contains k
        then d.map (fun e => if e.1 = k then (k, jmerge e.2 v) else e)
        else d ++ [(k, v)]
      jmergeObj d' rest
  jmergeArr (d : List JValue) : List JValue → List JValue
    | [] => d
    | s :: srest =>
      match d with
      | [] => s :: jmergeArr [] srest
      | x :: drest => jmerge x s :: jmergeArr drest srest

/-- A `Parameters`-section entry before serialization: `Type` is always the
string "String"; `Default` is a field only when a default was merged in
(`JSON.stringify` drops `undefined`-valued fields). -/
structure ParamEntry where
  type : String
  default : Option String
deriving DecidableEq, Repr

/-- lodash `merge` on the `Default` field: a defined source value
overwrites, an `undefined` source value is skipped. -/
def mergeDefault (old new : Option String) : Option String :=
  match new with
  | some d => some d
  | none => old

/-- Merging one collected parameter's `{[name]: {Type: "String", Default:
defaultValue}}` object into the `Parameters` accumulator: on a fresh key the
entry is appended; on an existing key the entry keeps its position, `Type`
stays "String" and `Default` follows `mergeDefault`. -/
def mergeParam1 : List (String × ParamEntry) → CFParameter →
    List (String × ParamEntry)
  | [], p => [(p.name, ⟨"String", p.defaultValue⟩)]
  | e :: rest, p =>
    if e.1 = p.name then
      (p.name, ⟨"String", mergeDefault e.2.default p.defaultValue⟩) :: rest
    else e :: mergeParam1 rest p

/-- Folding all collected parameters into the base `Parameters` object. -/
def mergeParams (acc : List (String × ParamEntry)) :
    List CFParameter → List (String × ParamEntry)
  | [] => acc
  | p :: rest => mergeParams (mergeParam1 acc p) rest

/-- The collected parameter list of `buildCloudFormationTemplate`:
environment variables' parameters, then permissions' parameters, then (when
present) the event source's table parameter. The source wraps this list in
lodash `uniq`, which compares by object reference (SameValueZero); every
element is a freshly constructed object, so `uniq` is the identity there
and is omitted here. -/
def collectedParameters (eventSource : Option Table)
    (environment : List EnvironmentVariable)
    (permissions : List Permission) : List CFParameter :=
  (environment.map EnvironmentVariableParametersProvider.toParameters).flatten ++
    (permissions.map PermissionParametersProvider.toParameters).flatten ++
    (match eventSource with
     | some t => [TableParameterProvider.toParameter t]
     | none => [])

/-- The two fixed parameters `env` and `resourceName` (the latter defaulted
to the function's name). -/
def baseParameters (name : String) : List (String × ParamEntry) :=
  [("env", ⟨"String", none⟩), ("resourceName", ⟨"String", some name⟩)]

/-- The `Parameters` section, as ordered entries. -/
def parametersEntries (name : String) (eventSource : Option Table)
    (environment : List EnvironmentVariable)
    (permissions : List Permission) : List (String × ParamEntry) :=
  mergeParams (baseParameters name)
    (collectedParameters eventSource environment permissions)

/-- Serialization of a `Parameters` entry: the `Default` field is present
exactly when the entry carries a default. -/
def paramEntryToJson (e : ParamEntry) : JValue :=
  .obj (("Type", JValue.str e.type) ::
    (match e.default with
     | some d => [("Default", JValue.str d)]
     | none => []))

/-- The serialized `Parameters` section. -/
def parametersSection (name : String) (eventSource : Option Table)
    (environment : List EnvironmentVariable)
    (permissions : List Permission) : JValue :=
  .obj ((parametersEntries name eventSource environment permissions).map
    (fun e => (e.1, paramEntryToJson e.2)))

/-- Insert-or-overwrite on an association list: an existing key keeps its
position and gets the new value, a fresh key is appended. This is JS object
assignment, the semantics of `fromPairs` followed by an object spread. -/
def upsertA {α : Type} : List (String × α) → String → α → List (String × α)
  | [], k, v => [(k, v)]
  | e :: rest, k, v =>
    if e.1 = k then (k, v) :: rest else e :: upsertA rest k v

/-- Folding condition definitions into the `Conditions` object (later
conditions with a colliding name overwrite earlier ones). -/
def condFold (init : List (String × JValue)) :
    List CFConditionDefinition → List (String × JValue)
  | [] => init
  | c :: rest => condFold (upsertA init c.name c.block) rest

/-- The collected condition list: environment variables' conditions, then
permissions' conditions. -/
def collectedConditions (environment : List EnvironmentVariable)
    (permissions : List Permission) : List CFConditionDefinition :=
  (environment.map EnvironmentVariableConditionProvider.toConditions).flatten ++
    (permissions.map PermissionConditionProvider.toConditions).flatten

/-- The fixed condition `ShouldNotCreateEnvResources`: the `env` parameter
equals the sentinel "NONE". -/
def shouldNotCreateEnvResourcesBlock : JValue :=
  .obj [("Fn::Equals", .arr [.obj [("Ref", .str "env")], .str "NONE"])]

/-- The `Conditions` section, as ordered entries. -/
def conditionsEntries (environment : List EnvironmentVariable)
    (permissions : List Permission) : List (String × JValue) :=
  condFold [("ShouldNotCreateEnvResources", shouldNotCreateEnvResourcesBlock)]
    (collectedConditions environment permissions)

/-- The `Environment.Variables` mapping of the function resource: the fixed
`ENV` and `REGION` entries merged (lodash `merge`) with one single-key
object per declared variable. -/
def variablesEntries (environment : List EnvironmentVariable) :
    List (String × JValue) :=
  (environment.map EnvironmentVariableVariableProvider.toVariable).foldl
    (fun acc vd => jmerge.jmergeObj acc [(vd.name, vd.block)])
    [("ENV", .obj [("Ref", .str "env")]),
     ("REGION", .obj [("Ref", .str "AWS::Region")])]

/-- The `LambdaFunction` resource. -/
def lambdaFunctionResource (name : String)
    (environment : List EnvironmentVariable) : JValue :=
  .obj [
    ("Type", .str "AWS::Lambda::Function"),
    ("Metadata", .obj [
      ("aws:asset:path", .str "./src"),
      ("aws:asset:property", .str "Code")]),
    ("Properties", .obj [
      ("Handler", .str "index.handler"),
      ("FunctionName", .obj [("Fn::If", .arr [
        .str "ShouldNotCreateEnvResources",
        .str name,
        .obj [("Fn::Join", .arr [.str "",
          .arr [.str name, .str "-", .obj [("Ref", .str "env")]]])]])]),
      ("Environment", .obj [("Variables", .obj (variablesEntries environment))]),
      ("Role", .obj [("Fn::GetAtt", .arr [.str "LambdaExecutionRole", .str "Arn"])]),
      ("Runtime", .str "nodejs10.x"),
      ("Timeout", .str "25")])]

/-- The `LambdaExecutionRole` resource. -/
def lambdaExecutionRoleResource (name : String) : JValue :=
  .obj [
    ("Type", .str "AWS::IAM::Role"),
    ("Properties", .obj [
      ("RoleName", .obj [("Fn::If", .arr [
        .str "ShouldNotCreateEnvResources",
        .str (name ++ "LambdaRole"),
        .obj [("Fn::Join", .arr [.str "",
          .arr [.str (name ++ "LambdaRole"), .str "-",
            .obj [("Ref", .str "env")]]])]])]),
      ("AssumeRolePolicyDocument", .obj [
        ("Version", .str "2012-10-17"),
        ("Statement", .arr [
          .obj [
            ("Effect", .str "Allow"),
            ("Principal", .obj [("Service", .arr [.str "lambda.amazonaws.com"])]),
            ("Action", .arr [.str "sts:AssumeRole"])]])])])]

/-- The `lambdaexecutionpolicy` resource: baseline log permissions plus one
statement per permission. -/
def lambdaExecutionPolicyResource (permissions : List Permission) : JValue :=
  let logStatement : JValue :=
    .obj [
      ("Effect", .str "Allow"),
      ("Action", .arr [
        .str "logs:CreateLogGroup",
        .str "logs:CreateLogStream",
        .str "logs:PutLogEvents"]),
      ("Resource", .obj [("Fn::Sub", .arr [
        .str "arn:aws:logs:${region}:${account}:log-group:/aws/lambda/${lambda}:log-stream:*",
        .obj [
          ("region", .obj [("Ref", .str "AWS::Region")]),
          ("account", .obj [("Ref", .str "AWS::AccountId")]),
          ("lambda", .obj [("Ref", .str "LambdaFunction")])]])])]
  .obj [
    ("DependsOn", .arr [.str "LambdaExecutionRole"]),
    ("Type", .str "AWS::IAM::Policy"),
    ("Properties", .obj [
      ("PolicyName", .str "lambda-execution-policy"),
      ("Roles", .arr [.obj [("Ref", .str "LambdaExecutionRole")]]),
      ("PolicyDocument", .obj [
        ("Version", .str "2012-10-17"),
        ("Statement", .arr (logStatement ::
          permissions.map PermissionPolicyProvider.toPolicyStatement))])])]

/-- The `LambdaTriggerPolicy` resource (present only with an event source). -/
def lambdaTriggerPolicyResource (eventSource : Table) : JValue :=
  .obj [
    ("DependsOn", .arr [.str "LambdaExecutionRole"]),
    ("Type", .str "AWS::IAM::Policy"),
    ("Properties", .obj [
      ("PolicyName", .str "amplify-lambda-execution-policy"),
      ("Roles", .arr [.obj [("Ref", .str "LambdaExecutionRole")]]),
      ("PolicyDocument", .obj [
        ("Version", .str "2012-10-17"),
        ("Statement", .arr [
          .obj [
            ("Effect", .str "Allow"),
            ("Action", .arr [
              .str "dynamodb:DescribeStream",
              .str "dynamodb:GetRecords",
              .str "dynamodb:GetShardIterator",
              .str "dynamodb:ListStreams"]),
            ("Resource", TableDetailProvider.toStreamArnExpression eventSource)]])])])]

/-- The `LambdaEventSourceMapping` resource (present only with an event
source). -/
def lambdaEventSourceMappingResource (eventSource : Table) : JValue :=
  .obj [
    ("Type", .str "AWS::Lambda::EventSourceMapping"),
    ("DependsOn", .arr [.str "LambdaTriggerPolicy", .str "LambdaExecutionRole"]),
    ("Properties", .obj [
      ("BatchSize", .num 1),
      ("MaximumBatchingWindowInSeconds", .num 1),
      ("Enabled", .bool true),
      ("EventSourceArn", TableDetailProvider.toStreamArnExpression eventSource),
      ("FunctionName", .obj [("Fn::GetAtt", .arr [.str "LambdaFunction", .str "Arn"])]),
      ("StartingPosition", .str "LATEST")])]

/-- The `Resources` section, as ordered entries: the fixed skeleton plus,
when an event source is present, the trigger policy and the mapping. -/
def resourcesEntries (name : String) (eventSource : Option Table)
    (environment : List EnvironmentVariable)
    (permissions : List Permission) : List (String × JValue) :=
  [("LambdaFunction", lambdaFunctionResource name environment),
   ("LambdaExecutionRole", lambdaExecutionRoleResource name),
   ("lambdaexecutionpolicy", lambdaExecutionPolicyResource permissions)] ++
    (match eventSource with
     | some t =>
       [("LambdaTriggerPolicy", lambdaTriggerPolicyResource t),
        ("LambdaEventSourceMapping", lambdaEventSourceMappingResource t)]
     | none => [])

/-- The fixed `Outputs` section. -/
def outputsSection : JValue :=
  .obj [
    ("Name", .obj [("Value", .obj [("Ref", .str "LambdaFunction")])]),
    ("Arn", .obj [("Value",
      .obj [("Fn::GetAtt", .arr [.str "LambdaFunction", .str "Arn"])])]),
    ("Region", .obj [("Value", .obj [("Ref", .str "AWS::Region")])]),
    ("LambdaExecutionRole", .obj [("Value",
      .obj [("Ref", .str "LambdaExecutionRole")])])]

/-- `buildCloudFormationTemplate`, instantiated (as the CLI does) with the
concrete `CFEnvironment`, `CFPermissions` and table providers. -/
def buildCloudFormationTemplate (name : String) (eventSource : Option Table)
    (environment : List EnvironmentVariable)
    (permissions : List Permission) : JValue :=
  .obj [
    ("AWSTemplateFormatVersion", .str "2010-09-09"),
    ("Description", .str "Lambda resource stack creation using Amplify CLI"),
    ("Parameters", parametersSection name eventSource environment permissions),
    ("Conditions", .obj (conditionsEntries environment permissions)),
    ("Resources", .obj (resourcesEntries name eventSource environment permissions)),
    ("Outputs", outputsSection)]

/-! ## Association-list lemmas -/

theorem lookupA_upsertA_self {α : Type} (m : List (String × α)) (k : String)
    (v : α) : lookupA (upsertA m k v) k = some v := by
  induction m with
  | nil => simp [upsertA, lookupA]
  | cons e rest ih =>
    by_cases h : e.1 = k
    · simp [upsertA, h, lookupA]
    · simp [upsertA, h, lookupA, ih]

theorem lookupA_upsertA_ne {α : Type} (m : List (String × α)) {k k' : String}
    (v : α) (h : k' ≠ k) : lookupA (upsertA m k v) k' = lookupA m k' := by
  have hkk : ¬ k = k' := fun hh => h hh.symm
  induction m with
  | nil => simp [upsertA, lookupA, hkk]
  | cons e rest ih =>
    by_cases he : e.1 = k
    · have hek : ¬ e.1 = k' := fun hh => hkk (he.symm.trans hh)
      simp [upsertA, he, lookupA, hkk, hek]
    · simp [upsertA, he, lookupA, ih]

theorem mem_keysA_upsertA {α : Type} (m : List (String × α)) (k : String)
    (v : α) {x : String} (hx : x ∈ keysA (upsertA m k v)) :
    x ∈ keysA m ∨ x = k := by
  induction m with
  | nil => simpa [upsertA, keysA] using hx
  | cons e rest ih =>
    by_cases he : e.1 = k
    · simp only [upsertA, he, if_pos rfl] at hx
      rcases (by simpa [keysA] using hx : x = k ∨ x ∈ keysA rest) with h | h
      · exact Or.inr h
      · exact Or.inl (by simp [keysA]; exact Or.inr (by simpa [keysA] using h))
    · simp only [upsertA, he, if_neg he] at hx
      rcases (by simpa [keysA] using hx : x = e.1 ∨ x ∈ keysA (upsertA rest k v)) with h | h
      · exact Or.inl (by simp [keysA, h])
      · rcases ih (by simpa [keysA] using h) with h2 | h2
        · exact Or.inl (by simp [keysA] at h2 ⊢; exact Or.inr h2)
        · exact Or.inr h2

theorem nodup_keysA_upsertA {α : Type} (m : List (String × α)) (k : String)
    (v : α) (h : (keysA m).Nodup) : (keysA (upsertA m k v)).Nodup := by
  induction m with
  | nil => simp [upsertA, keysA]
  | cons e rest ih =>
    simp only [keysA, List.map_cons, List.nodup_cons] at h
    by_cases he : e.1 = k
    · simp only [upsertA, if_pos he, keysA, List.map_cons, List.nodup_cons]
      exact ⟨he ▸ h.1, h.2⟩
    · simp only [upsertA, if_neg he, keysA, List.map_cons, List.nodup_cons]
      refine ⟨fun hx => ?_, ih h.2⟩
      rcases mem_keysA_upsertA rest k v (by simpa [keysA] using hx) with h2 | h2
      · exact h.1 (by simpa [keysA] using h2)
      · exact he h2

theorem mem_keysA_of_lookupA {α : Type} {m : List (String × α)} {k : String}
    {v : α} (h : lookupA m k = some v) : k ∈ keysA m := by
  induction m with
  | nil => simp [lookupA] at h
  | cons e rest ih =>
    by_cases he : e.1 = k
    · simp [keysA, he]
    · simp only [lookupA, if_neg he] at h
      simp [keysA]
      exact Or.inr (by simpa [keysA] using ih h)

theorem lookupA_map_snd {α β : Type} (m : List (String × α)) (f : α → β)
    (k : String) :
    lookupA (m.map (fun e => (e.1, f e.2))) k = (lookupA m k).map f := by
  induction m with
  | nil => simp [lookupA]
  | cons e rest ih =>
    by_cases he : e.1 = k
    · simp [lookupA, he]
    · simp [lookupA, he, ih]

theorem keysA_map_snd {α β : Type} (m : List (String × α)) (f : α → β) :
    keysA (m.map (fun e => (e.1, f e.2))) = keysA m := by
  induction m with
  | nil => rfl
  | cons e rest ih => simp [keysA]

/-! ## condFold lemmas -/

theorem condFold_append (init : List (String × JValue))
    (a b : List CFConditionDefinition) :
    condFold init (a ++ b) = condFold (condFold init a) b := by
  induction a generalizing init with
  | nil => simp [condFold]
  | cons c rest ih => simp [condFold, ih]

theorem lookupA_condFold_of_no_name (init : List (String × JValue))
    (cs : List CFConditionDefinition) (k : String)
    (h : ∀ c ∈ cs, c.name ≠ k) :
    lookupA (condFold init cs) k = lookupA init k := by
  induction cs generalizing init with
  | nil => simp [condFold]
  | cons c rest ih =>
    have h1 : lookupA (condFold (upsertA init c.name c.block) rest) k =
        lookupA (upsertA init c.name c.block) k :=
      ih _ (fun d hd => h d (List.mem_cons_of_mem c hd))
    have h2 : lookupA (upsertA init c.name c.block) k = lookupA init k :=
      lookupA_upsertA_ne init c.block
        (fun he => h c (List.mem_cons_self c rest) he.symm)
    simp only [condFold]
    rw [h1, h2]

theorem mem_keysA_condFold (init : List (String × JValue))
    (cs : List CFConditionDefinition) {x : String}
    (hx : x ∈ keysA (condFold init cs)) :
    x ∈ keysA init ∨ x ∈ cs.map CFConditionDefinition.name := by
  induction cs generalizing init with
  | nil => exact Or.inl (by simpa [condFold] using hx)
  | cons c rest ih =>
    simp only [condFold] at hx
    rcases ih _ hx with h | h
    · rcases mem_keysA_upsertA init c.name c.block h with h2 | h2
      · exact Or.inl h2
      · exact Or.inr (by simp [h2])
    · exact Or.inr (by simp [h])

theorem nodup_keysA_condFold (init : List (String × JValue))
    (cs : List CFConditionDefinition) (h : (keysA init).Nodup) :
    (keysA (condFold init cs)).Nodup := by
  induction cs generalizing init with
  | nil => simpa [condFold] using h
  | cons c rest ih =>
    simp only [condFold]
    exact ih _ (nodup_keysA_upsertA init c.name c.block h)

/-! ## mergeParams lemmas -/

theorem lookupA_mergeParam1_self_none (m : List (String × ParamEntry))
    (p : CFParameter) (h : lookupA m p.name = none) :
    lookupA (mergeParam1 m p) p.name = some ⟨"String", p.defaultValue⟩ := by
  induction m with
  | nil => simp [mergeParam1, lookupA]
  | cons e rest ih =>
    by_cases he : e.1 = p.name
    · simp [lookupA, he] at h
    · simp only [lookupA, if_neg he] at h
      simp [mergeParam1, he, lookupA, ih h]

theorem lookupA_mergeParam1_self_some (m : List (String × ParamEntry))
    (p : CFParameter) (e : ParamEntry) (h : lookupA m p.name = some e) :
    lookupA (mergeParam1 m p) p.name =
      some ⟨"String", mergeDefault e.default p.defaultValue⟩ := by
  induction m with
  | nil => simp [lookupA] at h
  | cons e0 rest ih =>
    by_cases he : e0.1 = p.name
    · simp only [lookupA, if_pos he] at h
      cases h
      simp [mergeParam1, he, lookupA]
    · simp only [lookupA, if_neg he] at h
      simp [mergeParam1, he, lookupA, ih h]

theorem lookupA_mergeParam1_ne (m : List (String × ParamEntry))
    (p : CFParameter) {k : String} (h : k ≠ p.name) :
    lookupA (mergeParam1 m p) k = lookupA m k := by
  have hpk : ¬ p.name = k := fun hh => h hh.symm
  induction m with
  | nil => simp [mergeParam1, lookupA, hpk]
  | cons e rest ih =>
    by_cases he : e.1 = p.name
    · have hek : ¬ e.1 = k := fun hh => hpk (he.symm.trans hh)
      simp [mergeParam1, he, lookupA, hpk, hek]
    · by_cases hk : e.1 = k
      · simp [mergeParam1, he, h, lookupA, hk]
      · simp [mergeParam1, he, h, lookupA, hk, ih]

theorem mem_keysA_mergeParam1 (m : List (String × ParamEntry))
    (p : CFParameter) {x : String} (hx : x ∈ keysA (mergeParam1 m p)) :
    x ∈ keysA m ∨ x = p.name := by
  induction m with
  | nil => simpa [mergeParam1, keysA] using hx
  | cons e rest ih =>
    by_cases he : e.1 = p.name
    · simp only [mergeParam1, if_pos he] at hx
      rcases (by simpa [keysA] using hx : x = p.name ∨ x ∈ keysA rest) with h | h
      · exact Or.inr h
      · exact Or.inl (by simp [keysA]; exact Or.inr (by simpa [keysA] using h))
    · simp only [mergeParam1, if_neg he] at hx
      rcases (by simpa [keysA] using hx : x = e.1 ∨ x ∈ keysA (mergeParam1 rest p)) with h | h
      · exact Or.inl (by simp [keysA, h])
      · rcases ih (by simpa [keysA] using h) with h2 | h2
        · exact Or.inl (by simp [keysA] at h2 ⊢; exact Or.inr h2)
        · exact Or.inr h2

theorem keysA_mergeParam1_mono (m : List (String × ParamEntry))
    (p : CFParameter) {x : String} (hx : x ∈ keysA m) :
    x ∈ keysA (mergeParam1 m p) := by
  induction m with
  | nil => simp [keysA] at hx
  | cons e rest ih =>
    by_cases he : e.1 = p.name
    · rcases (by simpa [keysA] using hx : x = e.1 ∨ x ∈ keysA rest) with h | h
      · simp [mergeParam1, he, keysA]
        exact Or.inl (h.trans he)
      · simp [mergeParam1, he, keysA]
        exact Or.inr (by simpa [keysA] using h)
    · rcases (by simpa [keysA] using hx : x = e.1 ∨ x ∈ keysA rest) with h | h
      · simp [mergeParam1, he, keysA, h]
      · simp [mergeParam1, he, keysA]
        exact Or.inr (by simpa [keysA] using ih h)

theorem name_mem_keysA_mergeParam1 (m : List (String × ParamEntry))
    (p : CFParameter) : p.name ∈ keysA (mergeParam1 m p) := by
  induction m with
  | nil => simp [mergeParam1, keysA]
  | cons e rest ih =>
    by_cases he : e.1 = p.name
    · simp [mergeParam1, he, keysA]
    · simp [mergeParam1, he, keysA]
      exact Or.inr (by simpa [keysA] using ih)

theorem nodup_keysA_mergeParam1 (m : List (String × ParamEntry))
    (p : CFParameter) (h : (keysA m).Nodup) :
    (keysA (mergeParam1 m p)).Nodup := by
  induction m with
  | nil => simp [mergeParam1, keysA]
  | cons e rest ih =>
    simp only [keysA, List.map_cons, List.nodup_cons] at h
    by_cases he : e.1 = p.name
    · simp only [mergeParam1, if_pos he, keysA, List.map_cons, List.nodup_cons]
      exact ⟨he ▸ h.1, h.2⟩
    · simp only [mergeParam1, if_neg he, keysA, List.map_cons, List.nodup_cons]
      refine ⟨fun hx => ?_, ih h.2⟩
      rcases mem_keysA_mergeParam1 rest p (by simpa [keysA] using hx) with h2 | h2
      · exact h.1 (by simpa [keysA] using h2)
      · exact he h2

theorem keysA_mergeParams_mono (ps : List CFParameter)
    (acc : List (String × ParamEntry)) {x : String} (hx : x ∈ keysA acc) :
    x ∈ keysA (mergeParams acc ps) := by
  induction ps generalizing acc with
  | nil => simpa [mergeParams] using hx
  | cons p rest ih =>
    simp only [mergeParams]
    exact ih _ (keysA_mergeParam1_mono acc p hx)

theorem name_mem_keysA_mergeParams (ps : List CFParameter)
    (acc : List (String × ParamEntry)) {p : CFParameter} (hp : p ∈ ps) :
    p.name ∈ keysA (mergeParams acc ps) := by
  induction ps generalizing acc with
  | nil => simp at hp
  | cons q rest ih =>
    simp only [mergeParams]
    rcases List.mem_cons.1 hp with h | h
    · subst h
      exact keysA_mergeParams_mono rest _ (name_mem_keysA_mergeParam1 acc p)
    · exact ih _ h

theorem mem_keysA_mergeParams (ps : List CFParameter)
    (acc : List (String × ParamEntry)) {x : String}
    (hx : x ∈ keysA (mergeParams acc ps)) :
    x ∈ keysA acc ∨ x ∈ ps.map CFParameter.name := by
  induction ps generalizing acc with
  | nil => exact Or.inl (by simpa [mergeParams] using hx)
  | cons p rest ih =>
    simp only [mergeParams] at hx
    rcases ih _ hx with h | h
    · rcases mem_keysA_mergeParam1 acc p h with h2 | h2
      · exact Or.inl h2
      · exact Or.inr (by simp [h2])
    · exact Or.inr (by simp [h])

theorem nodup_keysA_mergeParams (ps : List CFParameter)
    (acc : List (String × ParamEntry)) (h : (keysA acc).Nodup) :
    (keysA (mergeParams acc ps)).Nodup := by
  induction ps generalizing acc with
  | nil => simpa [mergeParams] using h
  | cons p rest ih =>
    simp only [mergeParams]
    exact ih _ (nodup_keysA_mergeParam1 acc p h)

/-- The invariant behind claim C8: if every collected parameter named `k`
carries the same default `d`, then after merging, the entry at `k` (when it
exists) is exactly `{Type: "String", Default: d}`. -/
theorem lookupA_mergeParams_agree (ps : List CFParameter)
    (acc : List (String × ParamEntry)) (k : String) (d : Option String)
    (hacc : lookupA acc k = none ∨ lookupA acc k = some ⟨"String", d⟩)
    (hag : ∀ p ∈ ps, p.name = k → p.defaultValue = d) :
    lookupA (mergeParams acc ps) k = none ∨
      lookupA (mergeParams acc ps) k = some ⟨"String", d⟩ := by
  induction ps generalizing acc with
  | nil => simpa [mergeParams] using hacc
  | cons p rest ih =>
    simp only [mergeParams]
    refine ih _ ?_ (fun q hq => hag q (List.mem_cons_of_mem p hq))
    by_cases hk : p.name = k
    · subst hk
      have hd := hag p (List.mem_cons_self p rest) rfl
      rcases hacc with h | h
      · exact Or.inr (by rw [lookupA_mergeParam1_self_none acc p h, hd])
      · refine Or.inr ?_
        rw [lookupA_mergeParam1_self_some acc p _ h, hd]
        cases d <;> simp [mergeDefault]
    · rw [lookupA_mergeParam1_ne acc p (fun he => hk he.symm)]
      exact hacc

/-! ## Condition-name lemmas -/

theorem firstNotEmpty_ne_shouldNot (n : String) :
    "FirstNotEmpty_" ++ n ≠ "ShouldNotCreateEnvResources" := by
  intro h
  have h2 : ("FirstNotEmpty_" ++ n).data = "ShouldNotCreateEnvResources".data := by
    rw [h]
  rw [String.data_append] at h2
  rw [show "FirstNotEmpty_".data = 'F' :: "irstNotEmpty_".data from rfl] at h2
  rw [show "ShouldNotCreateEnvResources".data =
    'S' :: "houldNotCreateEnvResources".data from rfl] at h2
  simp only [List.cons_append, List.cons.injEq] at h2
  exact absurd h2.1 (by decide)

theorem firstNotEmpty_inj {a b : String}
    (h : "FirstNotEmpty_" ++ a = "FirstNotEmpty_" ++ b) : a = b := by
  have h2 := congrArg String.data h
  rw [String.data_append, String.data_append] at h2
  exact String.ext (List.append_cancel_left h2)

/-- The body of the condition a `CoalescedVariable` generates: the negation
of an equality test between the first leg's runtime expression and "". -/
def coalescedConditionBlock (first : VariableValueExpression) : JValue :=
  .obj [("Fn::Not", .arr [
    .obj [("Fn::Equals", .arr [
      variableValueExpressionToCfExpression first, .str ""])]])]

theorem envConds_mem {c : CFConditionDefinition}
    {env : List EnvironmentVariable}
    (hc : c ∈ (env.map EnvironmentVariableConditionProvider.toConditions).flatten) :
    ∃ n f s, EnvironmentVariable.coalescedVar n f s ∈ env ∧
      c = ⟨"FirstNotEmpty_" ++ n, coalescedConditionBlock f⟩ := by
  rcases List.mem_flatten.1 hc with ⟨l, hl, hcl⟩
  rcases List.mem_map.1 hl with ⟨v, hv, rfl⟩
  cases v with
  | tableNameVar t =>
    simp [EnvironmentVariableConditionProvider.toConditions] at hcl
  | parameterVar a b =>
    simp [EnvironmentVariableConditionProvider.toConditions] at hcl
  | resourceOutputVar a b =>
    simp [EnvironmentVariableConditionProvider.toConditions] at hcl
  | coalescedVar n f s =>
    refine ⟨n, f, s, hv, ?_⟩
    simpa [EnvironmentVariableConditionProvider.toConditions,
      conditionNameForEnv, coalescedConditionBlock] using hcl

theorem permissionConds_flatten_nil (perms : List Permission) :
    (perms.map PermissionConditionProvider.toConditions).flatten = [] := by
  induction perms with
  | nil => rfl
  | cons p rest ih => simp [PermissionConditionProvider.toConditions, ih]

theorem collectedConditions_mem {c : CFConditionDefinition}
    {env : List EnvironmentVariable} {perms : List Permission}
    (hc : c ∈ collectedConditions env perms) :
    ∃ n f s, EnvironmentVariable.coalescedVar n f s ∈ env ∧
      c = ⟨"FirstNotEmpty_" ++ n, coalescedConditionBlock f⟩ := by
  rw [collectedConditions, permissionConds_flatten_nil, List.append_nil] at hc
  exact envConds_mem hc

theorem conditionsEntries_shouldNot (env : List EnvironmentVariable)
    (perms : List Permission) :
    lookupA (conditionsEntries env perms) "ShouldNotCreateEnvResources" =
      some shouldNotCreateEnvResourcesBlock := by
  unfold conditionsEntries
  rw [lookupA_condFold_of_no_name]
  · simp [lookupA]
  · intro c hc
    rcases collectedConditions_mem hc with ⟨n, f, s, _, rfl⟩
    exact firstNotEmpty_ne_shouldNot n

theorem conditionsEntries_keys {env : List EnvironmentVariable}
    {perms : List Permission} {k : String}
    (hk : k ∈ keysA (conditionsEntries env perms))
    (hne : k ≠ "ShouldNotCreateEnvResources") :
    ∃ n f s, EnvironmentVariable.coalescedVar n f s ∈ env ∧
      k = "FirstNotEmpty_" ++ n := by
  rcases mem_keysA_condFold _ _ hk with h | h
  · exact absurd (by simpa [keysA] using h) hne
  · rcases List.mem_map.1 h with ⟨c, hc, rfl⟩
    rcases collectedConditions_mem hc with ⟨n, f, s, hv, rfl⟩
    exact ⟨n, f, s, hv, rfl⟩

theorem nodup_keysA_conditionsEntries (env : List EnvironmentVariable)
    (perms : List Permission) :
    (keysA (conditionsEntries env perms)).Nodup :=
  nodup_keysA_condFold _ _ (by simp [keysA])

theorem lookupA_isSome_of_mem_keysA {α : Type} {m : List (String × α)}
    {k : String} (h : k ∈ keysA m) : (lookupA m k).isSome := by
  induction m with
  | nil => simp [keysA] at h
  | cons e rest ih =>
    by_cases he : e.1 = k
    · simp [lookupA, he]
    · rcases (by simpa [keysA] using h : k = e.1 ∨ k ∈ keysA rest) with h2 | h2
      · exact absurd h2.symm he
      · simp only [lookupA, if_neg he]
        exact ih (by simpa [keysA] using h2)

/-- Looking up a nested field path in a JSON value. -/
def JValue.path (v : JValue) : List String → Option JValue
  | [] => some v
  | k :: rest =>
    match v.lookup k with
    | some w => JValue.path w rest
    | none => none

/-- The field names of a JSON object (empty for non-objects). -/
def JValue.fieldNames : JValue → List String
  | .obj m => keysA m
  | _ => []

/-- A `Permission` whose action list (as relevant for its policy statement)
is non-empty: `SendMailPermission` always emits the fixed send action, the
other three variants emit exactly their `actions` field. -/
def permissionHasActions : Permission → Prop
  | .tablePermission _ actions => actions ≠ []
  | .userPoolPermission _ actions => actions ≠ []
  | .sendMailPermission _ => True
  | .iamActionPermission actions _ => actions ≠ []

/-! ## Claims -/

/-- C2, counterexample: the claim "for every Permission the policy
statement has Effect "Allow" and a non-empty Action list" fails at the
concrete input `TablePermission {table: {apiName:"a", tableName:"T"},
actions: []}` — an empty actions list is a legal value of the type and is
mapped to an empty `Action` array. -/
theorem C2_policy_counterexample :
    ¬ ((PermissionPolicyProvider.toPolicyStatement
        (.tablePermission ⟨"a", "T"⟩ [])).lookup "Effect" =
          some (.str "Allow") ∧
      ∃ l, (PermissionPolicyProvider.toPolicyStatement
        (.tablePermission ⟨"a", "T"⟩ [])).lookup "Action" =
          some (.arr l) ∧ l ≠ []) := by
  rintro ⟨-, l, hl, hne⟩
  have h0 : (PermissionPolicyProvider.toPolicyStatement
      (.tablePermission ⟨"a", "T"⟩ [])).lookup "Action" = some (.arr []) := rfl
  rw [h0] at hl
  injection hl with h1
  injection h1 with h2
  exact hne h2.symm

/-- C2, amended: for every Permission the policy statement has Effect
"Allow", and its Action list is non-empty provided the permission's own
action list is non-empty (SendMailPermission always emits the fixed
singleton). -/
theorem C2_policy_effect_and_actions (p : Permission) :
    (PermissionPolicyProvider.toPolicyStatement p).lookup "Effect" =
      some (.str "Allow") ∧
    (permissionHasActions p →
      ∃ l, (PermissionPolicyProvider.toPolicyStatement p).lookup "Action" =
        some (.arr l) ∧ l ≠ []) := by
  cases p with
  | tablePermission t actions =>
    refine ⟨rfl, fun h => ⟨_, rfl, fun hmap => ?_⟩⟩
    exact (by simpa [permissionHasActions] using h :
      actions ≠ []) (by simpa using hmap)
  | userPoolPermission u actions =>
    refine ⟨rfl, fun h => ⟨_, rfl, fun hmap => ?_⟩⟩
    exact (by simpa [permissionHasActions] using h :
      actions ≠ []) (by simpa using hmap)
  | sendMailPermission identity =>
    exact ⟨rfl, fun _ => ⟨_, rfl, by simp⟩⟩
  | iamActionPermission actions resources =>
    refine ⟨rfl, fun h => ⟨_, rfl, fun hmap => ?_⟩⟩
    exact (by simpa [permissionHasActions] using h :
      actions ≠ []) (by simpa using hmap)

/-- C2, witness: the amended claim applied at a concrete permission. -/
theorem C2_policy_effect_and_actions_witness :
    ∃ l, (PermissionPolicyProvider.toPolicyStatement
      (.tablePermission ⟨"a", "T"⟩ [.readItem])).lookup "Action" =
        some (.arr l) ∧ l ≠ [] :=
  (C2_policy_effect_and_actions
    (.tablePermission ⟨"a", "T"⟩ [.readItem])).2
    (by simp [permissionHasActions])

/-- C4: a CoalescedVariable named X produces exactly one condition, named
"FirstNotEmpty_X", whose body negates an equality test between the first
leg's runtime expression and "", and its variable resolves to an Fn::If
gated by that condition name selecting the first leg's expression when the
condition holds and the second leg's otherwise. -/
theorem C4_coalesced_condition_and_variable (n : String)
    (f s : VariableValueExpression) :
    EnvironmentVariableConditionProvider.toConditions (.coalescedVar n f s) =
      [⟨"FirstNotEmpty_" ++ n,
        .obj [("Fn::Not", .arr [
          .obj [("Fn::Equals", .arr [
            variableValueExpressionToCfExpression f, .str ""])]])]⟩] ∧
    EnvironmentVariableVariableProvider.toVariable (.coalescedVar n f s) =
      ⟨n, .obj [("Fn::If", .arr [
        .str ("FirstNotEmpty_" ++ n),
        variableValueExpressionToCfExpression f,
        variableValueExpressionToCfExpression s])]⟩ :=
  ⟨rfl, rfl⟩

/-- C5: a TableNameVariable resolves to a variable named by upper-casing
`tableName + "_table_name"` (e.g. "TODO_TABLE_NAME" for "Todo"), whose
value is an import keyed by the table's derived API-id parameter name
followed by ":GetAtt:" + tableName + "Table:Name". -/
theorem C5_tableNameVariable (t : Table) :
    EnvironmentVariableVariableProvider.toVariable (.tableNameVar t) =
      ⟨toUpperCase (t.tableName ++ "_table_name"),
        .obj [("Fn::ImportValue", .obj [("Fn::Sub",
          .str ("$\x7b" ++ ("api" ++ t.apiName ++ "GraphQLAPIIdOutput") ++
            "\x7d:GetAtt:" ++ t.tableName ++ "Table:Name"))])]⟩ ∧
    (EnvironmentVariableVariableProvider.toVariable
      (.tableNameVar ⟨"myApi", "Todo"⟩)).name = "TODO_TABLE_NAME" :=
  ⟨rfl, by decide⟩

/-- C6: a TablePermission's Action list is the element-wise, order
preserving image of its actions under ReadItem ↦ dynamodb:GetItem,
UpdateItem ↦ dynamodb:UpdateItem; in particular [ReadItem, UpdateItem]
yields exactly [dynamodb:GetItem, dynamodb:UpdateItem]. -/
theorem C6_tablePermission_action_mapping (t : Table)
    (actions : List TableAction) :
    (PermissionPolicyProvider.toPolicyStatement
      (.tablePermission t actions)).lookup "Action" =
      some (.arr (actions.map (fun a => .str (policyActionForTableAction a)))) ∧
    policyActionForTableAction .readItem = "dynamodb:GetItem" ∧
    policyActionForTableAction .updateItem = "dynamodb:UpdateItem" ∧
    (PermissionPolicyProvider.toPolicyStatement
      (.tablePermission t [.readItem, .updateItem])).lookup "Action" =
      some (.arr [.str "dynamodb:GetItem", .str "dynamodb:UpdateItem"]) :=
  ⟨rfl, rfl, rfl, rfl⟩

/-- C3: without an event source the Resources section contains neither a
trigger policy nor an event-source mapping; with one, both appear, both
DependsOn lists contain the execution role, and the mapping has BatchSize
1, MaximumBatchingWindowInSeconds 1, StartingPosition "LATEST" and Enabled
true. -/
theorem C3_eventSource_resources (name : String)
    (env : List EnvironmentVariable) (perms : List Permission) :
    ((buildCloudFormationTemplate name none env perms).lookup "Resources" =
        some (.obj (resourcesEntries name none env perms)) ∧
      lookupA (resourcesEntries name none env perms) "LambdaTriggerPolicy" =
        none ∧
      lookupA (resourcesEntries name none env perms)
        "LambdaEventSourceMapping" = none) ∧
    ∀ t : Table,
      (buildCloudFormationTemplate name (some t) env perms).lookup
          "Resources" =
        some (.obj (resourcesEntries name (some t) env perms)) ∧
      lookupA (resourcesEntries name (some t) env perms)
          "LambdaTriggerPolicy" = some (lambdaTriggerPolicyResource t) ∧
      lookupA (resourcesEntries name (some t) env perms)
          "LambdaEventSourceMapping" =
        some (lambdaEventSourceMappingResource t) ∧
      (lambdaTriggerPolicyResource t).lookup "DependsOn" =
        some (.arr [.str "LambdaExecutionRole"]) ∧
      (lambdaEventSourceMappingResource t).lookup "DependsOn" =
        some (.arr [.str "LambdaTriggerPolicy", .str "LambdaExecutionRole"]) ∧
      JValue.str "LambdaExecutionRole" ∈
        ([.str "LambdaExecutionRole"] : List JValue) ∧
      JValue.str "LambdaExecutionRole" ∈
        ([.str "LambdaTriggerPolicy", .str "LambdaExecutionRole"] :
          List JValue) ∧
      (lambdaEventSourceMappingResource t).path ["Properties", "BatchSize"] =
        some (.num 1) ∧
      (lambdaEventSourceMappingResource t).path
          ["Properties", "MaximumBatchingWindowInSeconds"] = some (.num 1) ∧
      (lambdaEventSourceMappingResource t).path
          ["Properties", "StartingPosition"] = some (.str "LATEST") ∧
      (lambdaEventSourceMappingResource t).path ["Properties", "Enabled"] =
        some (.bool true) := by
  refine ⟨⟨rfl, rfl, rfl⟩, fun t => ⟨rfl, rfl, rfl, rfl, rfl, ?_, ?_, rfl,
    rfl, rfl, rfl⟩⟩
  · exact List.mem_singleton.2 rfl
  · exact List.mem_cons_of_mem _ (List.mem_singleton.2 rfl)

/-- The single statement of the trigger policy's policy document, as the
claim describes it. -/
def triggerPolicyStatement (t : Table) : JValue :=
  .obj [
    ("Effect", .str "Allow"),
    ("Action", .arr [
      .str "dynamodb:DescribeStream",
      .str "dynamodb:GetRecords",
      .str "dynamodb:GetShardIterator",
      .str "dynamodb:ListStreams"]),
    ("Resource", TableDetailProvider.toStreamArnExpression t)]

/-- C9: with an event source present, the Resource of the single statement
of the trigger policy and the EventSourceArn of the event-source mapping
are the same stream-ARN import expression derived from that table. -/
theorem C9_trigger_resource_eq_eventSourceArn (name : String)
    (env : List EnvironmentVariable) (perms : List Permission) (t : Table) :
    (buildCloudFormationTemplate name (some t) env perms).lookup
        "Resources" =
      some (.obj (resourcesEntries name (some t) env perms)) ∧
    lookupA (resourcesEntries name (some t) env perms)
        "LambdaTriggerPolicy" = some (lambdaTriggerPolicyResource t) ∧
    (lambdaTriggerPolicyResource t).path
        ["Properties", "PolicyDocument", "Statement"] =
      some (.arr [triggerPolicyStatement t]) ∧
    (triggerPolicyStatement t).lookup "Resource" =
      some (TableDetailProvider.toStreamArnExpression t) ∧
    (lambdaEventSourceMappingResource t).path
        ["Properties", "EventSourceArn"] =
      some (TableDetailProvider.toStreamArnExpression t) ∧
    (triggerPolicyStatement t).lookup "Resource" =
      (lambdaEventSourceMappingResource t).path
        ["Properties", "EventSourceArn"] :=
  ⟨rfl, rfl, rfl, rfl, rfl, rfl⟩

/-- C10: the Conditions section always contains ShouldNotCreateEnvResources
(an equality test of the env parameter against "NONE"); every other key has
the form "FirstNotEmpty_" + name for some CoalescedVariable of the
environment list; no Permission variant ever contributes a condition. -/
theorem C10_conditions_shape (name : String) (es : Option Table)
    (env : List EnvironmentVariable) (perms : List Permission) :
    (buildCloudFormationTemplate name es env perms).lookup "Conditions" =
      some (.obj (conditionsEntries env perms)) ∧
    lookupA (conditionsEntries env perms) "ShouldNotCreateEnvResources" =
      some (.obj [("Fn::Equals",
        .arr [.obj [("Ref", .str "env")], .str "NONE"])]) ∧
    (∀ p : Permission, PermissionConditionProvider.toConditions p = []) ∧
    ∀ k ∈ keysA (conditionsEntries env perms),
      k ≠ "ShouldNotCreateEnvResources" →
      ∃ n f s, EnvironmentVariable.coalescedVar n f s ∈ env ∧
        k = "FirstNotEmpty_" ++ n := by
  refine ⟨rfl, conditionsEntries_shouldNot env perms, fun _ => rfl, ?_⟩
  intro k hk hne
  exact conditionsEntries_keys hk hne

/-- C10, witness: the key characterization applied at a concrete
environment with one CoalescedVariable named "X". -/
theorem C10_conditions_shape_witness :
    ∃ n f s, EnvironmentVariable.coalescedVar n f s ∈
        [EnvironmentVariable.coalescedVar "X"
          (.param ⟨"a", none⟩) (.param ⟨"b", none⟩)] ∧
      "FirstNotEmpty_X" = "FirstNotEmpty_" ++ n :=
  (C10_conditions_shape "fn" none
    [EnvironmentVariable.coalescedVar "X"
      (.param ⟨"a", none⟩) (.param ⟨"b", none⟩)] []).2.2.2
    "FirstNotEmpty_X" (by decide) (by decide)

/-- An environment list holding two CoalescedVariables that share a name. -/
def envWithTwoCoalesced (l1 l2 l3 : List EnvironmentVariable) (n : String)
    (f1 s1 f2 s2 : VariableValueExpression) : List EnvironmentVariable :=
  l1 ++ EnvironmentVariable.coalescedVar n f1 s1 ::
    (l2 ++ EnvironmentVariable.coalescedVar n f2 s2 :: l3)

/-- C7: two distinct CoalescedVariables sharing a name produce exactly one
condition under the shared generated name, and its body is the one of the
variable occurring later in the environment list (later overwrites earlier
on key collision). -/
theorem C7_coalesced_name_collision (name : String) (es : Option Table)
    (perms : List Permission) (l1 l2 l3 : List EnvironmentVariable)
    (n : String) (f1 s1 f2 s2 : VariableValueExpression)
    (_hdist : (f1, s1) ≠ (f2, s2))
    (hl3 : ∀ v ∈ l3, ∀ f s, v ≠ EnvironmentVariable.coalescedVar n f s) :
    (buildCloudFormationTemplate name es
        (envWithTwoCoalesced l1 l2 l3 n f1 s1 f2 s2) perms).lookup
        "Conditions" =
      some (.obj (conditionsEntries
        (envWithTwoCoalesced l1 l2 l3 n f1 s1 f2 s2) perms)) ∧
    (keysA (conditionsEntries (envWithTwoCoalesced l1 l2 l3 n f1 s1 f2 s2)
      perms)).count ("FirstNotEmpty_" ++ n) = 1 ∧
    lookupA (conditionsEntries (envWithTwoCoalesced l1 l2 l3 n f1 s1 f2 s2)
      perms) ("FirstNotEmpty_" ++ n) = some (coalescedConditionBlock f2) := by
  have hdecomp : collectedConditions
      (envWithTwoCoalesced l1 l2 l3 n f1 s1 f2 s2) perms =
      (l1.map EnvironmentVariableConditionProvider.toConditions).flatten ++
      (⟨"FirstNotEmpty_" ++ n, coalescedConditionBlock f1⟩ ::
        ((l2.map EnvironmentVariableConditionProvider.toConditions).flatten ++
        (⟨"FirstNotEmpty_" ++ n, coalescedConditionBlock f2⟩ ::
          (l3.map EnvironmentVariableConditionProvider.toConditions).flatten))) := by
    simp [collectedConditions, permissionConds_flatten_nil, envWithTwoCoalesced,
      EnvironmentVariableConditionProvider.toConditions, conditionNameForEnv,
      coalescedConditionBlock]
  have hC : ∀ c ∈ (l3.map
      EnvironmentVariableConditionProvider.toConditions).flatten,
      c.name ≠ "FirstNotEmpty_" ++ n := by
    intro c hc heq
    rcases envConds_mem hc with ⟨n', f', s', hv, rfl⟩
    have hn : n' = n := firstNotEmpty_inj heq
    exact hl3 _ hv f' s' (by rw [hn])
  have hval : lookupA (conditionsEntries
      (envWithTwoCoalesced l1 l2 l3 n f1 s1 f2 s2) perms)
      ("FirstNotEmpty_" ++ n) = some (coalescedConditionBlock f2) := by
    unfold conditionsEntries
    rw [hdecomp, condFold_append]
    rw [show ∀ (M : List (String × JValue)) B2,
        condFold M (⟨"FirstNotEmpty_" ++ n, coalescedConditionBlock f1⟩ :: B2) =
          condFold (upsertA M ("FirstNotEmpty_" ++ n)
            (coalescedConditionBlock f1)) B2 from fun _ _ => rfl]
    rw [condFold_append]
    rw [show ∀ (M : List (String × JValue)) B2,
        condFold M (⟨"FirstNotEmpty_" ++ n, coalescedConditionBlock f2⟩ :: B2) =
          condFold (upsertA M ("FirstNotEmpty_" ++ n)
            (coalescedConditionBlock f2)) B2 from fun _ _ => rfl]
    rw [lookupA_condFold_of_no_name _ _ _ hC]
    exact lookupA_upsertA_self _ _ _
  refine ⟨rfl, ?_, hval⟩
  exact List.count_eq_one_of_mem
    (nodup_keysA_conditionsEntries _ perms) (mem_keysA_of_lookupA hval)

/-- C7, witness: the collision count applied at a concrete environment with
two distinct CoalescedVariables both named "X". -/
theorem C7_coalesced_name_collision_witness :
    (keysA (conditionsEntries (envWithTwoCoalesced [] [] [] "X"
      (.param ⟨"a", none⟩) (.param ⟨"b", none⟩)
      (.param ⟨"c", none⟩) (.param ⟨"d", none⟩)) [])).count
      ("FirstNotEmpty_" ++ "X") = 1 :=
  (C7_coalesced_name_collision "fn" none [] [] [] [] "X"
    (.param ⟨"a", none⟩) (.param ⟨"b", none⟩)
    (.param ⟨"c", none⟩) (.param ⟨"d", none⟩)
    (by decide) (by simp)).2.1

/-- C1: two permissions referencing the same Table (structurally equal)
leave exactly one entry in the Parameters section under the key
"api" + apiName + "GraphQLAPIIdOutput", not two. -/
theorem C1_table_parameter_dedup (name : String) (es : Option Table)
    (env : List EnvironmentVariable) (perms : List Permission)
    (t : Table) (a1 a2 : List TableAction)
    (h1 : Permission.tablePermission t a1 ∈ perms)
    (_h2 : Permission.tablePermission t a2 ∈ perms) :
    (buildCloudFormationTemplate name es env perms).lookup "Parameters" =
      some (parametersSection name es env perms) ∧
    JValue.fieldNames (parametersSection name es env perms) =
      keysA (parametersEntries name es env perms) ∧
    (keysA (parametersEntries name es env perms)).count
      ("api" ++ t.apiName ++ "GraphQLAPIIdOutput") = 1 := by
  refine ⟨rfl, ?_, ?_⟩
  · simpa [parametersSection, JValue.fieldNames] using
      keysA_map_snd (parametersEntries name es env perms) paramEntryToJson
  · have hnodup : (keysA (parametersEntries name es env perms)).Nodup :=
      nodup_keysA_mergeParams _ (baseParameters name)
        (by simp [baseParameters, keysA])
    have hparam : (⟨"Parameter", "api" ++ t.apiName ++ "GraphQLAPIIdOutput",
        none⟩ : CFParameter) ∈ collectedParameters es env perms := by
      unfold collectedParameters
      refine List.mem_append.2 (Or.inl (List.mem_append.2 (Or.inr ?_)))
      refine List.mem_flatten.2 ⟨_, List.mem_map.2 ⟨_, h1, rfl⟩, ?_⟩
      simp [PermissionParametersProvider.toParameters,
        ResourceOutputReferenceParameterProvider.toParameter,
        apiTableOutputReference]
    have hmem : ("api" ++ t.apiName ++ "GraphQLAPIIdOutput") ∈
        keysA (parametersEntries name es env perms) := by
      simpa [parametersEntries] using
        name_mem_keysA_mergeParams _ (baseParameters name) hparam
    exact List.count_eq_one_of_mem hnodup hmem

/-- C1, witness: the count applied to a concrete definition holding two
structurally equal table permissions. -/
theorem C1_table_parameter_dedup_witness :
    (keysA (parametersEntries "fn" none []
      [Permission.tablePermission ⟨"api1", "Notes"⟩ [.readItem],
       Permission.tablePermission ⟨"api1", "Notes"⟩ [.updateItem]])).count
      ("api" ++ "api1" ++ "GraphQLAPIIdOutput") = 1 :=
  (C1_table_parameter_dedup "fn" none []
    [Permission.tablePermission ⟨"api1", "Notes"⟩ [.readItem],
     Permission.tablePermission ⟨"api1", "Notes"⟩ [.updateItem]]
    ⟨"api1", "Notes"⟩ [.readItem] [.updateItem]
    (by decide) (by decide)).2.2

/-- C8: an emitted parameter entry carries a Default field exactly when the
originating parameter supplied one; a parameter without a default
serializes with no Default field at all (never with Default ""). Stated
for a collected parameter whose name does not collide with the two fixed
parameters and whose same-named occurrences agree on the default, which is
the injectivity precondition the assembler relies on. -/
theorem C8_default_iff_supplied (name : String) (es : Option Table)
    (env : List EnvironmentVariable) (perms : List Permission)
    (p : CFParameter) (hp : p ∈ collectedParameters es env perms)
    (h1 : p.name ≠ "env") (h2 : p.name ≠ "resourceName")
    (hag : ∀ q ∈ collectedParameters es env perms, q.name = p.name →
      q.defaultValue = p.defaultValue) :
    lookupA (parametersEntries name es env perms) p.name =
      some ⟨"String", p.defaultValue⟩ ∧
    (parametersSection name es env perms).lookup p.name =
      some (paramEntryToJson ⟨"String", p.defaultValue⟩) ∧
    (paramEntryToJson ⟨"String", p.defaultValue⟩).lookup "Default" =
      p.defaultValue.map JValue.str := by
  have hbase : lookupA (baseParameters name) p.name = none := by
    have b1 : ¬ "env" = p.name := fun hh => h1 hh.symm
    have b2 : ¬ "resourceName" = p.name := fun hh => h2 hh.symm
    simp [baseParameters, lookupA, b1, b2]
  have hagree := lookupA_mergeParams_agree
    (collectedParameters es env perms) (baseParameters name) p.name
    p.defaultValue (Or.inl hbase) hag
  have hmem : p.name ∈ keysA (parametersEntries name es env perms) := by
    simpa [parametersEntries] using
      name_mem_keysA_mergeParams _ (baseParameters name) hp
  have hlook : lookupA (parametersEntries name es env perms) p.name =
      some ⟨"String", p.defaultValue⟩ := by
    rcases hagree with h | h
    · exact absurd (lookupA_isSome_of_mem_keysA hmem)
        (by simp [parametersEntries, h])
    · simpa [parametersEntries] using h
  refine ⟨hlook, ?_, ?_⟩
  · have hm := lookupA_map_snd
      (parametersEntries name es env perms) paramEntryToJson p.name
    simp [parametersSection, JValue.lookup, hm, hlook]
  · cases p.defaultValue <;>
      simp [paramEntryToJson, JValue.lookup, lookupA]

/-- C8, witness: applied at a concrete definition with one supplied default
and checked both for presence and for a no-default parameter. -/
theorem C8_default_iff_supplied_witness :
    lookupA (parametersEntries "fn" none []
      [Permission.sendMailPermission ⟨"emailParam", some "sender"⟩])
      "emailParam" = some ⟨"String", some "sender"⟩ :=
  (C8_default_iff_supplied "fn" none []
    [Permission.sendMailPermission ⟨"emailParam", some "sender"⟩]
    ⟨"Parameter", "emailParam", some "sender"⟩
    (by decide) (by decide) (by decide) (by decide)).1

end AmplifyBackendGen
